/-
Verification of the memory-cache repository (src/lib.rs, src/main.rs):
a key-value cache with TTL-based lazy expiration, persisted as JSON.

Embedding notes:
* `HashMap<String, CacheEntry<T>>` is modelled as an association list with
  the usual map operations (`lookupKey`, `removeKey`, overwrite-on-insert);
  a real `HashMap` never holds two entries with the same key, which appears
  as a `Nodup` hypothesis where it matters.
* The system clock is passed explicitly: `SystemTime::now()` seconds since
  the epoch become a `clock : Int` parameter (negative = before the epoch,
  where `duration_since(...).unwrap()` panics, modelled as `none`).
* `u64` arithmetic (`now + ttl.as_secs()` in `insert`) is modelled on `Nat`
  with an explicit `% 2^64`, the wrap-around of release-mode Rust.
* `serde_json` (de)serialization of `Cache<String>` is modelled by a concrete
  printer for the derived format
  `\x7b"entries":\x7b"k":\x7b"value":"v","expiry":N\x7d,...\x7d\x7d`
  and a parser of exactly that grammar (JSON string escapes, `\uXXXX`
  including surrogate pairs, `u64` range check, leading-zero rejection,
  control characters in strings rejected), as `serde_json::to_string` /
  `serde_json::from_str` behave on this type.
* The file system is a small explicit state `FS`: the contents of
  `cache_state.json` plus read/write failure flags, so that
  `fs::read_to_string` and `fs::write` outcomes can be quantified over.
-/
import Mathlib

namespace MemoryCache

/-- `CacheEntry<T>` from src/lib.rs: a stored value with its absolute expiry
    timestamp in seconds (Rust `u64`, modelled as `Nat`). -/
structure CacheEntry (T : Type) where
  value : T
  expiry : Nat
deriving DecidableEq, Repr

/-- `Cache<T>` from src/lib.rs: `entries: HashMap<String, CacheEntry<T>>`,
    modelled as an association list. -/
structure Cache (T : Type) where
  entries : List (String × CacheEntry T)
deriving DecidableEq, Repr

/-- `2^64`: modulus of Rust `u64` arithmetic. -/
def U64MOD : Nat := 2 ^ 64

variable {T : Type}

/-- `HashMap::get`: first binding of the key, if any. -/
def lookupKey (k : String) : List (String × CacheEntry T) → Option (CacheEntry T)
  | [] => none
  | (k', e) :: rest => if k = k' then some e else lookupKey k rest

/-- `HashMap::remove`: drop every binding of the key (on a nodup-key list,
    the one binding). -/
def removeKey (k : String) : List (String × CacheEntry T) → List (String × CacheEntry T)
  | [] => []
  | (k', e) :: rest => if k = k' then removeKey k rest else (k', e) :: removeKey k rest

/-- Number of bindings of a key (to state "exactly one entry"). -/
def countKey (k : String) : List (String × CacheEntry T) → Nat
  | [] => 0
  | (k', _) :: rest => (if k = k' then 1 else 0) + countKey k rest

namespace Cache

/-- `Cache::new`: the empty cache. -/
def new : Cache T := ⟨[]⟩

/-- `SystemTime::now().duration_since(UNIX_EPOCH).unwrap().as_secs()`:
    `none` models the `unwrap` panic when the clock is before the epoch. -/
def nowSecs (clock : Int) : Option Nat :=
  if clock < 0 then none else some clock.toNat

/-- `Cache::insert`, clock already read: overwrite the key with the value and
    the absolute expiry `now + ttl` (u64 wrap-around). -/
def insert (c : Cache T) (key : String) (value : T) (ttl : Nat) (now : Nat) : Cache T :=
  ⟨(key, ⟨value, (now + ttl) % U64MOD⟩) :: removeKey key c.entries⟩

/-- `Cache::insert` including the clock read: `none` is the panic on a
    pre-epoch clock, otherwise the updated cache. -/
def insertChecked (c : Cache T) (key : String) (value : T) (ttl : Nat) (clock : Int) :
    Option (Cache T) :=
  match nowSecs clock with
  | none => none
  | some now => some (c.insert key value ttl now)

/-- `Cache::invalidate`: unconditional removal. -/
def invalidate (c : Cache T) (key : String) : Cache T :=
  ⟨removeKey key c.entries⟩

/-- `Cache::get` (mutating, so it returns the result together with the new
    state): absent → `none`; present and `now < expiry` → clone of the value;
    present and `now >= expiry` → remove the entry, `none`. -/
def get (c : Cache T) (key : String) (now : Nat) : Option T × Cache T :=
  match lookupKey key c.entries with
  | some entry => if now < entry.expiry then (some entry.value, c) else (none, c.invalidate key)
  | none => (none, c)

end Cache

/-! ### serde_json model: the derived format of `Cache<String>`

`serde_json::to_string` on `Cache<String>` emits
`\x7b"entries":\x7b"key":\x7b"value":"val","expiry":N\x7d,...\x7d\x7d`
with no whitespace, fields in declaration order, strings escaped as below,
and `expiry` in canonical decimal.  `serde_json::from_str` parses that
grammar (and rejects malformed input); the parser below covers exactly the
canonical grammar the printer emits. -/

/-- Lowercase hexadecimal digit, as serde_json emits inside `\u00XX`. -/
def hexDigitChar (n : Nat) : Char :=
  if n < 10 then Char.ofNat (48 + n) else Char.ofNat (87 + n)

/-- serde_json string escaping of one character: `"` and `\` get a backslash,
    the control characters BS HT LF FF CR get their short escapes, any other
    control character becomes `\u00XX`, everything else is verbatim. -/
def escapeChar (c : Char) : List Char :=
  if c = '"' then ['\\', '"']
  else if c = '\\' then ['\\', '\\']
  else if c = '\x08' then ['\\', 'b']
  else if c = '\t' then ['\\', 't']
  else if c = '\n' then ['\\', 'n']
  else if c = '\x0c' then ['\\', 'f']
  else if c = '\r' then ['\\', 'r']
  else if c.toNat < 32 then
    ['\\', 'u', '0', '0', hexDigitChar (c.toNat / 16), hexDigitChar (c.toNat % 16)]
  else [c]

def escapeList : List Char → List Char
  | [] => []
  | c :: cs => escapeChar c ++ escapeList cs

/-- A JSON string token: quoted and escaped. -/
def serializeString (s : String) : List Char :=
  '"' :: (escapeList s.data ++ ['"'])

/-- Canonical decimal digits of a `Nat` (what serde_json emits for `u64`). -/
def natDecimal (n : Nat) : List Char :=
  if n = 0 then ['0'] else (Nat.digits 10 n).reverse.map fun d => Char.ofNat (48 + d)

/-- `"key":\x7b"value":"val","expiry":N\x7d`, one map member. -/
def serializeEntry (k : String) (e : CacheEntry String) : List Char :=
  serializeString k ++ [':', '\x7b', '"', 'v', 'a', 'l', 'u', 'e', '"', ':']
    ++ serializeString e.value
    ++ [',', '"', 'e', 'x', 'p', 'i', 'r', 'y', '"', ':']
    ++ natDecimal e.expiry ++ ['\x7d']

/-- The members of the `entries` map, comma-separated, in list order
    (a `HashMap` iterates in some order; the model fixes the list's). -/
def serializeMembers : List (String × CacheEntry String) → List Char
  | [] => []
  | (k, e) :: rest =>
    serializeEntry k e ++
      (match rest with
       | [] => []
       | _ :: _ => ',' :: serializeMembers rest)

/-- `\x7b"entries":...\x7d` as the leading token list of the document. -/
def openTok : List Char :=
  ['\x7b', '"', 'e', 'n', 't', 'r', 'i', 'e', 's', '"', ':', '\x7b']

def serializeCacheChars (c : Cache String) : List Char :=
  openTok ++ serializeMembers c.entries ++ ['\x7d', '\x7d']

/-- `serde_json::to_string::<Cache<String>>` (it cannot fail on this type:
    string keys, string and integer fields). -/
def serializeCache (c : Cache String) : String :=
  String.mk (serializeCacheChars c)

/-- Value of one hexadecimal digit, either case (as serde_json accepts). -/
def parseHexDigit (c : Char) : Option Nat :=
  if 48 ≤ c.toNat ∧ c.toNat ≤ 57 then some (c.toNat - 48)
  else if 97 ≤ c.toNat ∧ c.toNat ≤ 102 then some (c.toNat - 87)
  else if 65 ≤ c.toNat ∧ c.toNat ≤ 70 then some (c.toNat - 55)
  else none

def hexQuad (a b c d : Char) : Option Nat := do
  let x ← parseHexDigit a
  let y ← parseHexDigit b
  let z ← parseHexDigit c
  let w ← parseHexDigit d
  some (((x * 16 + y) * 16 + z) * 16 + w)

/-- The single-character escapes serde_json accepts after a backslash. -/
def unescapeShort (c : Char) : Option Char :=
  if c = '"' then some '"'
  else if c = '\\' then some '\\'
  else if c = '/' then some '/'
  else if c = 'b' then some '\x08'
  else if c = 'f' then some '\x0c'
  else if c = 'n' then some '\n'
  else if c = 'r' then some '\r'
  else if c = 't' then some '\t'
  else none

def consChar (c : Char) (r : Option (List Char × List Char)) :
    Option (List Char × List Char) :=
  r.map fun p => (c :: p.1, p.2)

/-- Read four hexadecimal digits from the front of the input. -/
def readHex4 (l : List Char) : Option (Nat × List Char) :=
  match l with
  | h1 :: h2 :: h3 :: h4 :: rest =>
    match hexQuad h1 h2 h3 h4 with
    | none => none
    | some n => some (n, rest)
  | _ => none

/-- Decode one escape sequence (the input starts after the backslash):
    short escapes, or `\uXXXX` with surrogate pairs combined and lone
    surrogates rejected, as serde_json. -/
def parseEscape (l : List Char) : Option (Char × List Char) :=
  match l with
  | [] => none
  | e :: rest =>
    if e = 'u' then
      match readHex4 rest with
      | none => none
      | some (n, rest3) =>
        if n < 55296 then some (Char.ofNat n, rest3)
        else if n ≤ 56319 then
          match rest3 with
          | [] => none
          | b1 :: rest4 =>
            match rest4 with
            | [] => none
            | u1 :: rest5 =>
              if b1 = '\\' ∧ u1 = 'u' then
                match readHex4 rest5 with
                | none => none
                | some (m, rest6) =>
                  if 56320 ≤ m ∧ m ≤ 57343 then
                    some (Char.ofNat (65536 + (n - 55296) * 1024 + (m - 56320)), rest6)
                  else none
              else none
        else if n ≤ 57343 then none
        else some (Char.ofNat n, rest3)
    else (unescapeShort e).map fun c => (c, rest)

/-- Body of a JSON string after the opening quote, with fuel (structural):
    the decoded characters plus the input after the closing quote.  Raw
    control characters are rejected, as serde_json does.  Every step consumes
    at least one input character and one unit of fuel, so fuel equal to the
    input length (as `parseString` passes) never runs out early. -/
def parseStringBodyF : Nat → List Char → Option (List Char × List Char)
  | 0, _ => none
  | _, [] => none
  | fuel + 1, c :: rest =>
    if c = '"' then some ([], rest)
    else if c = '\\' then
      match parseEscape rest with
      | none => none
      | some (c', rest2) => consChar c' (parseStringBodyF fuel rest2)
    else if c.toNat < 32 then none
    else consChar c (parseStringBodyF fuel rest)

/-- A JSON string body with the fuel instantiated sufficiently. -/
def parseString (l : List Char) : Option (List Char × List Char) :=
  parseStringBodyF l.length l

/-- Leading run of decimal digits, as digit values, with the remainder. -/
def takeDigits : List Char → List Nat × List Char
  | [] => ([], [])
  | c :: rest =>
    if 48 ≤ c.toNat ∧ c.toNat ≤ 57 then
      ((c.toNat - 48) :: (takeDigits rest).1, (takeDigits rest).2)
    else ([], c :: rest)

/-- Most-significant-first decimal digit evaluation. -/
def decValue (ds : List Nat) : Nat := ds.foldl (fun a d => 10 * a + d) 0

/-- A `u64` number token: at least one digit, no redundant leading zero,
    value within `u64` (serde_json rejects larger values for this field). -/
def parseU64 (l : List Char) : Option (Nat × List Char) :=
  match takeDigits l with
  | ([], _) => none
  | (d :: ds, r) =>
    if d = 0 ∧ ds ≠ [] then none
    else if decValue (d :: ds) < U64MOD then some (decValue (d :: ds), r) else none

/-- Consume an exact token sequence. -/
def expectTok : List Char → List Char → Option (List Char)
  | [], l => some l
  | _ :: _, [] => none
  | t :: ts, c :: l => if c = t then expectTok ts l else none

/-- One `"key":\x7b"value":"...","expiry":N\x7d` member. -/
def parseEntry (l : List Char) : Option ((String × CacheEntry String) × List Char) := do
  let l1 ← expectTok ['"'] l
  let (kcs, l2) ← parseString l1
  let l3 ← expectTok [':', '\x7b', '"', 'v', 'a', 'l', 'u', 'e', '"', ':', '"'] l2
  let (vcs, l4) ← parseString l3
  let l5 ← expectTok [',', '"', 'e', 'x', 'p', 'i', 'r', 'y', '"', ':'] l4
  let (n, l6) ← parseU64 l5
  let l7 ← expectTok ['\x7d'] l6
  some ((String.mk kcs, ⟨String.mk vcs, n⟩), l7)

/-- One or more comma-separated members, then the closing brace.  `fuel`
    only bounds the recursion; any bound at least the member count works. -/
def parseMembers : Nat → List Char → Option (List (String × CacheEntry String) × List Char)
  | 0, _ => none
  | fuel + 1, l =>
    match parseEntry l with
    | none => none
    | some (kv, l1) =>
      match l1 with
      | [] => none
      | c :: l2 =>
        if c = ',' then
          match parseMembers fuel l2 with
          | none => none
          | some (kvs, l3) => some (kv :: kvs, l3)
        else if c = '\x7d' then some ([kv], l2)
        else none

/-- The `entries` object after its opening brace: empty, or members. -/
def parseEntriesObj (fuel : Nat) (l : List Char) :
    Option (List (String × CacheEntry String) × List Char) :=
  if l.head? = some '\x7d' then some ([], l.tail)
  else parseMembers fuel l

/-- `serde_json::from_str::<Cache<String>>` on the canonical grammar that
    `to_string` emits for this type; anything else is a parse error
    (`none`), as `from_str` (which also insists on end of input). -/
def deserializeCacheChars (l : List Char) : Option (Cache String) :=
  match expectTok openTok l with
  | none => none
  | some l1 =>
    match parseEntriesObj l1.length l1 with
    | none => none
    | some (es, l2) => if l2 = ['\x7d'] then some ⟨es⟩ else none

def deserializeCache (s : String) : Option (Cache String) :=
  deserializeCacheChars s.data

/-! ### File-system model and the persistence adapter

The program touches one file, `cache_state.json` (`CACHE_FILE`).  Its state,
plus the possibility of read/write failures of `fs::read_to_string` and
`fs::write` (permissions, disk), is explicit. -/

/-- State of `cache_state.json` plus the I/O failure modes of this run. -/
structure FS where
  file : Option String
  readFails : Bool
  writeFails : Bool
deriving DecidableEq, Repr

/-- The error cases the persistence adapter can surface (`anyhow::Result`). -/
inductive LoadError where
  | deserializationError
  | ioError
deriving DecidableEq, Repr

/-- `fs::read_to_string(CACHE_FILE)`: `none` is any `Err(_)` — the file
    being absent or a read failure such as permissions; the code's
    `match` does not distinguish them. -/
def fsRead (fs : FS) : Option String :=
  if fs.readFails then none else fs.file

/-- `fs::write(CACHE_FILE, s)`: overwrites the file, or fails. -/
def fsWrite (fs : FS) (s : String) : Option FS :=
  if fs.writeFails then none else some { fs with file := some s }

/-- `save_cache`: serialize (which cannot fail for `Cache<String>`) and
    write the whole snapshot; a write failure is an IOError. -/
def save_cache (c : Cache String) (fs : FS) : Except LoadError FS :=
  match fsWrite fs (serializeCache c) with
  | none => .error .ioError
  | some fs' => .ok fs'

/-- `load_cache`: read the file and deserialize on success (a parse failure
    is a DeserializationError propagated to the caller); on any read error
    fall back to a fresh empty cache and eagerly `save_cache` it,
    propagating only that save's failure (`save_cache(&cache)?`). -/
def load_cache (fs : FS) : Except LoadError (Cache String × FS) :=
  match fsRead fs with
  | some contents =>
    match deserializeCache contents with
    | some c => .ok (c, fs)
    | none => .error .deserializationError
  | none =>
    match save_cache Cache.new fs with
    | .ok fs' => .ok (Cache.new, fs')
    | .error e => .error e

/-! ### Association-list lemmas -/

theorem lookupKey_removeKey_self (k : String) (l : List (String × CacheEntry T)) :
    lookupKey k (removeKey k l) = none := by
  induction l with
  | nil => rfl
  | cons p rest ih =>
    obtain ⟨k', e⟩ := p
    by_cases h : k = k'
    · subst h; simp [removeKey, ih]
    · simp [removeKey, lookupKey, h, ih]

theorem lookupKey_removeKey_ne (k k' : String) (h : k' ≠ k)
    (l : List (String × CacheEntry T)) :
    lookupKey k' (removeKey k l) = lookupKey k' l := by
  induction l with
  | nil => rfl
  | cons p rest ih =>
    obtain ⟨k'', e⟩ := p
    by_cases h1 : k = k''
    · subst h1
      simp [removeKey, lookupKey, h, ih]
    · by_cases h2 : k' = k'' <;> simp [removeKey, lookupKey, h1, h2, ih]

theorem countKey_removeKey_self (k : String) (l : List (String × CacheEntry T)) :
    countKey k (removeKey k l) = 0 := by
  induction l with
  | nil => rfl
  | cons p rest ih =>
    obtain ⟨k', e⟩ := p
    by_cases h : k = k'
    · subst h; simp [removeKey, ih]
    · simp [removeKey, countKey, h, ih]

/-! ### Round-trip of the serde_json model -/

theorem parseHexDigit_hexDigitChar (n : Nat) (h : n < 16) :
    parseHexDigit (hexDigitChar n) = some n := by
  interval_cases n <;> decide

theorem hexQuad_00 (t : Nat) (h : t < 256) :
    hexQuad '0' '0' (hexDigitChar (t / 16)) (hexDigitChar (t % 16)) = some t := by
  have h1 : t / 16 < 16 := by omega
  have h2 : t % 16 < 16 := by omega
  simp [hexQuad, parseHexDigit_hexDigitChar _ h1, parseHexDigit_hexDigitChar _ h2,
    (show parseHexDigit '0' = some 0 by decide)]
  omega

theorem parseStringBodyF_escapeChar (c : Char) (fuel : Nat) (tail : List Char) :
    parseStringBodyF (fuel + 1) (escapeChar c ++ tail) =
      consChar c (parseStringBodyF fuel tail) := by
  by_cases h1 : c = '"'
  · subst h1; rfl
  by_cases h2 : c = '\\'
  · subst h2; rfl
  by_cases h3 : c = '\x08'
  · subst h3; rfl
  by_cases h4 : c = '\t'
  · subst h4; rfl
  by_cases h5 : c = '\n'
  · subst h5; rfl
  by_cases h6 : c = '\x0c'
  · subst h6; rfl
  by_cases h7 : c = '\r'
  · subst h7; rfl
  by_cases h8 : c.toNat < 32
  · have h256 : c.toNat < 256 := by omega
    have hlow : c.toNat < 55296 := by omega
    simp only [escapeChar, if_neg h1, if_neg h2, if_neg h3, if_neg h4, if_neg h5,
      if_neg h6, if_neg h7, if_pos h8, List.cons_append, List.nil_append]
    simp [parseStringBodyF, parseEscape, readHex4, hexQuad_00 _ h256, hlow,
      Char.ofNat_toNat]
  · simp only [escapeChar, if_neg h1, if_neg h2, if_neg h3, if_neg h4, if_neg h5,
      if_neg h6, if_neg h7, if_neg h8, List.cons_append, List.nil_append]
    simp [parseStringBodyF, h1, h2, h8]

theorem parseStringBodyF_escapeList (cs : List Char) :
    ∀ fuel, cs.length < fuel → ∀ rest,
      parseStringBodyF fuel (escapeList cs ++ '"' :: rest) = some (cs, rest) := by
  induction cs with
  | nil =>
    intro fuel hf rest
    match fuel, hf with
    | f + 1, _ => rfl
  | cons c cs ih =>
    intro fuel hf rest
    match fuel, hf with
    | f + 1, hf =>
      rw [escapeList, List.append_assoc, parseStringBodyF_escapeChar,
        ih f (by simpa using Nat.lt_of_succ_lt_succ hf) rest]
      rfl

theorem escapeList_length (cs : List Char) : cs.length ≤ (escapeList cs).length := by
  induction cs with
  | nil => simp [escapeList]
  | cons c cs ih =>
    have hc : 1 ≤ (escapeChar c).length := by
      rw [escapeChar]
      repeat' split
      all_goals simp
    simp only [escapeList, List.length_append, List.length_cons]
    omega

theorem parseString_escapeList (cs rest : List Char) :
    parseString (escapeList cs ++ '"' :: rest) = some (cs, rest) := by
  have h := escapeList_length cs
  apply parseStringBodyF_escapeList
  simp
  omega

theorem expectTok_append (t r : List Char) : expectTok t (t ++ r) = some r := by
  induction t with
  | nil => rfl
  | cons c ts ih => simp [expectTok, ih]

theorem foldr_eq_ofDigits (l : List Nat) :
    l.foldr (fun d a => 10 * a + d) 0 = Nat.ofDigits 10 l := by
  induction l with
  | nil => simp [Nat.ofDigits]
  | cons d l ih =>
    rw [List.foldr_cons, ih, Nat.ofDigits_cons]
    omega

theorem decValue_digits (n : Nat) : decValue ((Nat.digits 10 n).reverse) = n := by
  rw [decValue, List.foldl_reverse]
  show (Nat.digits 10 n).foldr (fun d a => 10 * a + d) 0 = n
  rw [foldr_eq_ofDigits, Nat.ofDigits_digits]

theorem toNat_digitChar (d : Nat) (h : d < 10) : (Char.ofNat (48 + d)).toNat = 48 + d := by
  interval_cases d <;> decide

theorem takeDigits_digitList (ds : List Nat) (hds : ∀ d ∈ ds, d < 10) (r : List Char) :
    takeDigits ((ds.map fun d => Char.ofNat (48 + d)) ++ '\x7d' :: r) = (ds, '\x7d' :: r) := by
  induction ds with
  | nil => simp [takeDigits]
  | cons d ds ih =>
    have hd : d < 10 := hds d (by simp)
    have h1 : (Char.ofNat (48 + d)).toNat = 48 + d := toNat_digitChar d hd
    have hcond : 48 ≤ (Char.ofNat (48 + d)).toNat ∧ (Char.ofNat (48 + d)).toNat ≤ 57 := by
      rw [h1]; omega
    have ih' := ih fun d hd => hds d (List.mem_cons_of_mem _ hd)
    simp [takeDigits, if_pos hcond, h1, ih']
    omega

theorem parseU64_natDecimal (n : Nat) (h : n < U64MOD) (r : List Char) :
    parseU64 (natDecimal n ++ '\x7d' :: r) = some (n, '\x7d' :: r) := by
  by_cases h0 : n = 0
  · subst h0
    simp [natDecimal, parseU64, takeDigits, decValue, U64MOD]
  · have hne : Nat.digits 10 n ≠ [] := Nat.digits_ne_nil_iff_ne_zero.mpr h0
    have hdig : ∀ d ∈ (Nat.digits 10 n).reverse, d < 10 := fun d hd =>
      Nat.digits_lt_base (by norm_num) (List.mem_reverse.mp hd)
    obtain ⟨d, ds, hcons⟩ : ∃ d ds, (Nat.digits 10 n).reverse = d :: ds := by
      cases hrev : (Nat.digits 10 n).reverse with
      | nil =>
        exfalso
        apply hne
        have := congrArg List.reverse hrev
        simpa using this
      | cons d ds => exact ⟨d, ds, rfl⟩
    have hd0 : d ≠ 0 := by
      have hgl : (Nat.digits 10 n).getLast hne ≠ 0 := Nat.getLast_digit_ne_zero 10 h0
      have h2 : (Nat.digits 10 n).reverse.head? = some ((Nat.digits 10 n).getLast hne) := by
        rw [List.head?_reverse]
        exact List.getLast?_eq_getLast _ hne
      rw [hcons] at h2
      simp at h2
      rw [h2]
      exact hgl
    have hval : decValue (d :: ds) = n := by
      rw [← hcons, decValue_digits]
    rw [natDecimal, if_neg h0, parseU64, takeDigits_digitList _ hdig r, hcons]
    simp only
    rw [if_neg (by intro hc; exact hd0 hc.1), hval, if_pos h]

theorem String_mk_data (s : String) : String.mk s.data = s := rfl

theorem parseEntry_serializeEntry (k : String) (e : CacheEntry String)
    (h : e.expiry < U64MOD) (rest : List Char) :
    parseEntry (serializeEntry k e ++ rest) = some ((k, e), rest) := by
  simp only [parseEntry, serializeEntry, serializeString, List.append_assoc,
    List.cons_append, List.nil_append, Option.bind_eq_bind]
  simp [expectTok, parseString_escapeList, parseU64_natDecimal _ h, String_mk_data]

theorem parseMembers_serializeMembers (es : List (String × CacheEntry String)) :
    es ≠ [] → (∀ p ∈ es, p.2.expiry < U64MOD) →
    ∀ fuel, es.length ≤ fuel → ∀ rest,
      parseMembers fuel (serializeMembers es ++ '\x7d' :: rest) = some (es, rest) := by
  induction es with
  | nil => intro h; exact absurd rfl h
  | cons p es ih =>
    obtain ⟨k, e⟩ := p
    intro _ hexp fuel hfuel rest
    have hke : e.expiry < U64MOD := hexp (k, e) (by simp)
    match fuel, hfuel with
    | f + 1, hfuel =>
      cases es with
      | nil =>
        simp only [serializeMembers, List.append_nil, parseMembers,
          parseEntry_serializeEntry k e hke ('\x7d' :: rest)]
        simp [(show ('\x7d' : Char) ≠ ',' from by decide)]
      | cons q es' =>
        have hlen : (q :: es').length ≤ f := by
          simpa using Nat.lt_of_succ_le hfuel
        have ihq := ih (by simp) (fun p hp => hexp p (List.mem_cons_of_mem _ hp))
          f hlen rest
        simp only [serializeMembers, List.append_assoc, List.cons_append, parseMembers,
          parseEntry_serializeEntry k e hke]
        simp only [serializeMembers, List.append_assoc] at ihq
        simp [ihq]

theorem serializeEntry_length_pos (k : String) (e : CacheEntry String) :
    1 ≤ (serializeEntry k e).length := by
  simp [serializeEntry, serializeString]

theorem serializeMembers_length (es : List (String × CacheEntry String)) :
    es.length ≤ (serializeMembers es).length := by
  induction es with
  | nil => simp [serializeMembers]
  | cons p es ih =>
    obtain ⟨k, e⟩ := p
    have h1 := serializeEntry_length_pos k e
    cases es with
    | nil => simpa [serializeMembers] using h1
    | cons q es' =>
      simp only [serializeMembers, List.length_append, List.length_cons] at *
      omega

theorem serializeEntry_head (k : String) (e : CacheEntry String) (X : List Char) :
    (serializeEntry k e ++ X).head? = some '"' := by
  simp [serializeEntry, serializeString]

/-- Round-trip of the serde_json model: parsing back what the printer wrote
    restores the exact entries list (every expiry is a `u64`, hence the
    range hypothesis, which the Rust type enforces). -/
theorem deserializeCache_serializeCache (c : Cache String)
    (hexp : ∀ p ∈ c.entries, p.2.expiry < U64MOD) :
    deserializeCache (serializeCache c) = some c := by
  obtain ⟨es⟩ := c
  show deserializeCacheChars (serializeCacheChars ⟨es⟩) = some ⟨es⟩
  rw [deserializeCacheChars, serializeCacheChars, List.append_assoc, expectTok_append]
  cases es with
  | nil => simp [serializeMembers, parseEntriesObj]
  | cons p es' =>
    obtain ⟨k, e⟩ := p
    have hhead : (serializeMembers ((k, e) :: es') ++ ['\x7d', '\x7d']).head? = some '"' := by
      cases es' <;>
        simp only [serializeMembers, List.append_assoc, serializeEntry_head]
    have hfuel : ((k, e) :: es').length
        ≤ (serializeMembers ((k, e) :: es') ++ ['\x7d', '\x7d']).length := by
      have := serializeMembers_length ((k, e) :: es')
      simp only [List.length_append]
      omega
    have hm := parseMembers_serializeMembers ((k, e) :: es') (by simp) hexp
      (serializeMembers ((k, e) :: es') ++ ['\x7d', '\x7d']).length hfuel ['\x7d']
    simp only [parseEntriesObj, hhead, hm]
    simp [(show some '"' ≠ some '\x7d' from by decide)]

/-! ### Claims about the in-memory cache operations -/

/-- C1: for every cache state and key `k`: if `k` is absent, `get` returns
    `none` and leaves the mapping unchanged; if present with `now < expiry`,
    `get` returns (a clone of) the stored value and leaves the state alone;
    if present with `now ≥ expiry` (strict boundary), `get` returns `none`,
    removes the entry, and touches nothing else. -/
theorem get_spec (c : Cache T) (k : String) (now : Nat) :
    (lookupKey k c.entries = none → c.get k now = (none, c)) ∧
    (∀ e, lookupKey k c.entries = some e → now < e.expiry →
      c.get k now = (some e.value, c)) ∧
    (∀ e, lookupKey k c.entries = some e → e.expiry ≤ now →
      (c.get k now).1 = none ∧
      lookupKey k (c.get k now).2.entries = none ∧
      ∀ k', k' ≠ k → lookupKey k' (c.get k now).2.entries = lookupKey k' c.entries) := by
  refine ⟨fun h => by simp [Cache.get, h], fun e he hlt => by simp [Cache.get, he, hlt],
    fun e he hge => ?_⟩
  have hnot : ¬ now < e.expiry := not_lt.mpr hge
  refine ⟨by simp [Cache.get, he, hnot], ?_, ?_⟩
  · simp [Cache.get, he, hnot, Cache.invalidate, lookupKey_removeKey_self]
  · intro k' hk'
    simp only [Cache.get, he, hnot, if_false, Cache.invalidate]
    exact lookupKey_removeKey_ne k k' hk' c.entries

/-- Witness for C1 at a concrete two-entry cache, exercising the expired
    branch: the read returns `none`, drops `"a"`, and leaves `"b"` alone. -/
theorem get_spec_witness :
    ((Cache.mk [("a", ⟨"v", 5⟩), ("b", ⟨"w", 9⟩)] : Cache String).get "a" 5).1 = none ∧
    lookupKey "a"
      ((Cache.mk [("a", ⟨"v", 5⟩), ("b", ⟨"w", 9⟩)] : Cache String).get "a" 5).2.entries
      = none ∧
    lookupKey "b"
      ((Cache.mk [("a", ⟨"v", 5⟩), ("b", ⟨"w", 9⟩)] : Cache String).get "a" 5).2.entries
      = lookupKey "b" [("a", ⟨"v", 5⟩), ("b", ⟨"w", 9⟩)] :=
  have h := (get_spec (Cache.mk [("a", ⟨"v", 5⟩), ("b", ⟨"w", 9⟩)] : Cache String)
      "a" 5).2.2 ⟨"v", 5⟩ (by decide) (by decide)
  ⟨h.1, h.2.1, h.2.2 "b" (by decide)⟩

/-- C4: `insert` never fails for any key, value and ttl — the only panic is
    the `unwrap` on a pre-epoch clock: the checked insert returns a cache
    exactly when the clock is at or after the epoch. -/
theorem insert_total (c : Cache T) (k : String) (v : T) (ttl : Nat) (clock : Int) :
    (c.insertChecked k v ttl clock).isSome ↔ 0 ≤ clock := by
  constructor
  · intro hs
    by_contra hneg
    simp [Cache.insertChecked, Cache.nowSecs, (by omega : clock < 0)] at hs
  · intro h0
    have hns : Cache.nowSecs clock = some clock.toNat := if_neg (by omega)
    simp [Cache.insertChecked, hns]

/-- C5: inserting `(k, v1, t1)` then `(k, v2, t2)` leaves exactly one entry
    for `k`, holding `v2` with the expiry computed by the second insert, and
    an unexpired `get` then returns `v2`. -/
theorem insert_overwrite (c : Cache T) (k : String) (v1 v2 : T) (t1 t2 now1 now2 : Nat) :
    lookupKey k ((c.insert k v1 t1 now1).insert k v2 t2 now2).entries
      = some ⟨v2, (now2 + t2) % U64MOD⟩ ∧
    countKey k ((c.insert k v1 t1 now1).insert k v2 t2 now2).entries = 1 ∧
    ∀ now', now' < (now2 + t2) % U64MOD →
      ((c.insert k v1 t1 now1).insert k v2 t2 now2).get k now'
        = (some v2, (c.insert k v1 t1 now1).insert k v2 t2 now2) := by
  refine ⟨by simp [Cache.insert, lookupKey], ?_, ?_⟩
  · simp [Cache.insert, countKey, countKey_removeKey_self]
  · intro now' hlt
    simp [Cache.insert, Cache.get, lookupKey, hlt]

/-- Witness for C5 at concrete inputs: the second insert wins. -/
theorem insert_overwrite_witness :
    (((Cache.new (T := String)).insert "k" "v1" 10 100).insert "k" "v2" 20 200).get "k" 219
      = (some "v2", ((Cache.new (T := String)).insert "k" "v1" 10 100).insert "k" "v2" 20 200) :=
  (insert_overwrite (Cache.new (T := String)) "k" "v1" "v2" 10 20 100 200).2.2 219 (by decide)

/-- C6 counterexample: with `u64` wrap-around (`now + ttl` overflows), an
    insert with `ttl = 2^64 - 1` at time `1` yields expiry `0`, so the
    immediate `get` returns `none`, not the stored value. -/
theorem insert_get_cex :
    (((Cache.new (T := String)).insert "k" "v" (2 ^ 64 - 1) 1).get "k" 1).1 ≠ some "v" := by
  decide

/-- C6 (amended): insert-then-get at the same instant returns the value for
    every positive ttl, provided `now + ttl` does not overflow `u64`. -/
theorem insert_get (c : Cache T) (k : String) (v : T) (t now : Nat)
    (ht : 0 < t) (hov : now + t < U64MOD) :
    (c.insert k v t now).get k now = (some v, c.insert k v t now) := by
  have hmod : (now + t) % U64MOD = now + t := Nat.mod_eq_of_lt hov
  have hlt : now < (now + t) % U64MOD := by omega
  simp [Cache.insert, Cache.get, lookupKey, hlt]

/-- Witness for C6 (amended) at concrete inputs. -/
theorem insert_get_witness :
    (0 < 30 ∧ 1700000000 + 30 < U64MOD) ∧
    ((Cache.new (T := String)).insert "session" "token123" 30 1700000000).get
        "session" 1700000000
      = (some "token123", (Cache.new (T := String)).insert "session" "token123" 30 1700000000) :=
  ⟨⟨by decide, by decide⟩,
    insert_get (Cache.new (T := String)) "session" "token123" 30 1700000000
      (by decide) (by decide)⟩

/-- C7: inserting with `ttl = 0` stores expiry `now`, so a `get` at any time
    `≥ now` finds the entry expired and returns `none` (`now` is a `u64`
    clock reading, hence below `2^64`). -/
theorem ttl_zero_get (c : Cache T) (k : String) (v : T) (now t : Nat)
    (hnow : now < U64MOD) (ht : now ≤ t) :
    ((c.insert k v 0 now).get k t).1 = none := by
  have hmod : now % U64MOD = now := Nat.mod_eq_of_lt hnow
  have hnot : ¬ t < now % U64MOD := by omega
  simp [Cache.insert, Cache.get, lookupKey, hnot]

/-- Witness for C7 at concrete inputs: a zero-ttl entry is dead on arrival. -/
theorem ttl_zero_get_witness :
    (1700000000 < U64MOD ∧ 1700000000 ≤ 1700000000) ∧
    (((Cache.new (T := String)).insert "k" "v" 0 1700000000).get "k" 1700000000).1 = none :=
  ⟨⟨by decide, by decide⟩,
    ttl_zero_get (Cache.new (T := String)) "k" "v" 1700000000 1700000000
      (by decide) (by decide)⟩

/-- C8: `invalidate` removes the key unconditionally — afterwards the key is
    absent and `get` returns `none` (no error when the key was absent, since
    `invalidate` is total); in particular insert with any ttl followed by
    `invalidate` followed by `get` returns `none`. -/
theorem invalidate_spec (c : Cache T) (k : String) :
    lookupKey k (c.invalidate k).entries = none ∧
    (∀ now, (c.invalidate k).get k now = (none, c.invalidate k)) ∧
    (∀ v ttl now now', (((c.insert k v ttl now).invalidate k).get k now').1 = none) := by
  refine ⟨lookupKey_removeKey_self k c.entries, fun now => ?_, fun v ttl now now' => ?_⟩
  · simp [Cache.get, Cache.invalidate, lookupKey_removeKey_self]
  · simp [Cache.get, Cache.invalidate, lookupKey_removeKey_self]

/-- C10: frame property — `insert`, `get` and `invalidate` at key `k` do not
    disturb the binding of any other key `k'`; and a `get` that finds a live
    entry leaves the whole cache untouched (no TTL renewal on access). -/
theorem frame_spec (c : Cache T) (k k' : String) (h : k' ≠ k) :
    (∀ v ttl now, lookupKey k' ((c.insert k v ttl now).entries) = lookupKey k' c.entries) ∧
    lookupKey k' (c.invalidate k).entries = lookupKey k' c.entries ∧
    (∀ now, lookupKey k' ((c.get k now).2.entries) = lookupKey k' c.entries) ∧
    (∀ e now, lookupKey k c.entries = some e → now < e.expiry → (c.get k now).2 = c) := by
  refine ⟨fun v ttl now => ?_, ?_, fun now => ?_, fun e now he hlt => ?_⟩
  · simp [Cache.insert, lookupKey, h, lookupKey_removeKey_ne k k' h]
  · exact lookupKey_removeKey_ne k k' h c.entries
  · cases hl : lookupKey k c.entries with
    | none => simp [Cache.get, hl]
    | some e =>
      by_cases hlt : now < e.expiry
      · simp [Cache.get, hl, hlt]
      · simp [Cache.get, hl, hlt, Cache.invalidate]
        exact lookupKey_removeKey_ne k k' h c.entries
  · simp [Cache.get, he, hlt]

/-- Witness for C10 at a concrete cache: operations on `"a"` leave `"b"`
    alone, and a live read of `"a"` returns the state unchanged. -/
theorem frame_spec_witness :
    lookupKey "b"
      (((Cache.mk [("a", ⟨"v", 5⟩), ("b", ⟨"w", 9⟩)] : Cache String).invalidate "a").entries)
      = lookupKey "b" [("a", ⟨"v", 5⟩), ("b", ⟨"w", 9⟩)] ∧
    ((Cache.mk [("a", ⟨"v", 5⟩), ("b", ⟨"w", 9⟩)] : Cache String).get "a" 4).2
      = Cache.mk [("a", ⟨"v", 5⟩), ("b", ⟨"w", 9⟩)] :=
  have h := frame_spec (Cache.mk [("a", ⟨"v", 5⟩), ("b", ⟨"w", 9⟩)] : Cache String)
    "a" "b" (by decide)
  ⟨h.2.1, h.2.2.2 ⟨"v", 5⟩ 4 (by decide) (by decide)⟩

/-! ### Claims about the persistence adapter -/

/-- C2: `load` distinguishes a missing file from a corrupt one.  With a
    missing file (and working I/O) it returns the empty cache after eagerly
    writing it, so an immediate second `load` also returns the empty cache;
    with a present but malformed file it propagates a DeserializationError,
    with no fallback to empty. -/
theorem load_cache_missing_vs_corrupt (fs : FS) (hr : fs.readFails = false) :
    (fs.file = none → fs.writeFails = false →
      load_cache fs
          = .ok (Cache.new, { fs with file := some (serializeCache Cache.new) }) ∧
        load_cache { fs with file := some (serializeCache Cache.new) }
          = .ok (Cache.new, { fs with file := some (serializeCache Cache.new) })) ∧
    (∀ s, fs.file = some s → deserializeCache s = none →
      load_cache fs = .error .deserializationError) := by
  constructor
  · intro hfile hw
    constructor
    · simp [load_cache, fsRead, hr, hfile, save_cache, fsWrite, hw]
    · have hrt : deserializeCache (serializeCache Cache.new) = some Cache.new :=
        deserializeCache_serializeCache Cache.new (by simp [Cache.new])
      simp [load_cache, fsRead, hr, hrt]
  · intro s hfile hbad
    simp [load_cache, fsRead, hr, hfile, hbad]

/-- Witness for C2: a truly missing file on working I/O (first run, then a
    second run on the produced state), and the concretely malformed file
    content `"x"`. -/
theorem load_cache_missing_vs_corrupt_witness :
    (load_cache ⟨none, false, false⟩
        = .ok (Cache.new, ⟨some (serializeCache Cache.new), false, false⟩) ∧
      load_cache ⟨some (serializeCache Cache.new), false, false⟩
        = .ok (Cache.new, ⟨some (serializeCache Cache.new), false, false⟩)) ∧
    load_cache ⟨some "x", false, false⟩ = .error .deserializationError :=
  ⟨(load_cache_missing_vs_corrupt ⟨none, false, false⟩ rfl).1 rfl rfl,
    (load_cache_missing_vs_corrupt ⟨some "x", false, false⟩ rfl).2 "x" rfl (by decide)⟩

/-- C3 counterexample: a read failure on a present file (`readFails`, e.g. a
    permissions error) does NOT propagate an IOError — `load_cache` falls
    back to the empty cache (and overwrites the file with it), because the
    code matches `Err(_)` without inspecting the error kind. -/
theorem load_cache_read_failure_cex :
    load_cache ⟨some "data", true, false⟩
      = .ok (Cache.new, ⟨some "\x7b\"entries\":\x7b\x7d\x7d", true, false⟩) := by
  rfl

/-- C3 (amended): a read failure for a reason other than absence is treated
    exactly like a missing file — `load` falls back to an empty cache and
    eagerly saves it; an IOError is propagated only when that save's write
    itself fails. -/
theorem load_cache_read_failure (fs : FS) (hr : fs.readFails = true) :
    (fs.writeFails = false →
      load_cache fs
        = .ok (Cache.new, { fs with file := some (serializeCache Cache.new) })) ∧
    (fs.writeFails = true → load_cache fs = .error .ioError) := by
  constructor
  · intro hw
    simp [load_cache, fsRead, hr, save_cache, fsWrite, hw]
  · intro hw
    simp [load_cache, fsRead, hr, save_cache, fsWrite, hw]

/-- Witness for C3 (amended) at concrete states: fallback when the write
    works, IOError when it does not. -/
theorem load_cache_read_failure_witness :
    load_cache ⟨some "data", true, false⟩
        = .ok (Cache.new, ⟨some (serializeCache Cache.new), true, false⟩) ∧
    load_cache ⟨some "data", true, true⟩ = .error .ioError :=
  ⟨(load_cache_read_failure ⟨some "data", true, false⟩ rfl).1 rfl,
    (load_cache_read_failure ⟨some "data", true, true⟩ rfl).2 rfl⟩

/-- C9: persistence round-trip — saving any cache (expired entries included)
    and loading it back reconstructs the exact same entries (the same key
    set with the same (value, expiry) pairs; expiries are `u64` values,
    whence the range hypothesis). -/
theorem save_load_roundtrip (c : Cache String) (fs : FS)
    (hexp : ∀ p ∈ c.entries, p.2.expiry < U64MOD)
    (hw : fs.writeFails = false) (hr : fs.readFails = false) :
    ∃ fs', save_cache c fs = .ok fs' ∧ load_cache fs' = .ok (c, fs') := by
  refine ⟨{ fs with file := some (serializeCache c) }, ?_, ?_⟩
  · simp [save_cache, fsWrite, hw]
  · simp [load_cache, fsRead, hr, deserializeCache_serializeCache c hexp]

/-- Witness for C9 on a concrete two-entry cache one of whose entries is
    long expired. -/
theorem save_load_roundtrip_witness :
    ∃ fs', save_cache ⟨[("old", ⟨"v", 5⟩), ("new", ⟨"w", 1700000030⟩)]⟩ ⟨none, false, false⟩
        = .ok fs' ∧
      load_cache fs'
        = .ok (⟨[("old", ⟨"v", 5⟩), ("new", ⟨"w", 1700000030⟩)]⟩, fs') :=
  save_load_roundtrip ⟨[("old", ⟨"v", 5⟩), ("new", ⟨"w", 1700000030⟩)]⟩ ⟨none, false, false⟩
    (by decide) rfl rfl

end MemoryCache
